import Mathlib

/- Shallow embedding of the shiftcheck web application (src/app.py).

   The SQLite tables declared in init_db are modelled as lists of row
   structures; each request handler is a state transformer DB → DB × Resp
   translated statement by statement from the Flask handler bodies.
   AUTOINCREMENT primary keys are modelled by freshId (one more than the
   largest id present).  Python string primitives str.strip, str.lower and
   str.split are re-defined below by structural recursion on the character
   list so that the kernel can evaluate them (ASCII whitespace, which covers
   every input the handlers receive from HTTP forms). -/

namespace Shiftcheck

/-- Characters removed by Python str.strip with no argument (ASCII range). -/
def isSpaceChar (c : Char) : Bool := c.isWhitespace

/-- List-level strip: drop whitespace from both ends. -/
def stripChars (l : List Char) : List Char :=
  ((l.dropWhile isSpaceChar).reverse.dropWhile isSpaceChar).reverse

/-- Python s.strip(). -/
def pyStrip (s : String) : String := ⟨stripChars s.data⟩

/-- Python s.lower() (ASCII case mapping, as Char.toLower). -/
def pyLower (s : String) : String := ⟨s.data.map Char.toLower⟩

/-- Splitting a character list at newline characters; like Python split('\n'),
the result always has one more element than the number of newlines. -/
def splitNLAux : List Char → List Char → List (List Char)
  | acc, [] => [acc.reverse]
  | acc, c :: rest =>
    if c = '\n' then acc.reverse :: splitNLAux [] rest
    else splitNLAux (c :: acc) rest

/-- Python s.split('\n'). -/
def pySplitNL (s : String) : List String :=
  (splitNLAux [] s.data).map (fun l => ⟨l⟩)

/-- Email normalisation used by register and login:
request.form['email'].strip().lower(). -/
def normEmail (s : String) : String := pyLower (pyStrip s)

/-- A row of table `user` (id, email UNIQUE, name, password, is_admin). -/
structure UserRow where
  id : Nat
  email : String
  name : String
  password : String
  is_admin : Nat
deriving DecidableEq, Repr

/-- A row of table `shift` (id, title, description, is_template). -/
structure ShiftRow where
  id : Nat
  title : String
  description : String
  is_template : Nat
deriving DecidableEq, Repr

/-- A row of table `shift_step` (id, shift_id, position, description). -/
structure ShiftStepRow where
  id : Nat
  shift_id : Nat
  position : Nat
  description : String
deriving DecidableEq, Repr

/-- A row of table `progress` (id, user_id, shift_id, step_id, completed,
timestamp). -/
structure ProgressRow where
  id : Nat
  user_id : Nat
  shift_id : Nat
  step_id : Nat
  completed : Nat
  timestamp : String
deriving DecidableEq, Repr

/-- A row of table `note` (id, shift_id, user_id, content, timestamp). -/
structure NoteRow where
  id : Nat
  shift_id : Nat
  user_id : Nat
  content : String
  timestamp : String
deriving DecidableEq, Repr

/-- The whole database: the five tables created by init_db. -/
structure DB where
  user : List UserRow
  shift : List ShiftRow
  shift_step : List ShiftStepRow
  progress : List ProgressRow
  note : List NoteRow
deriving DecidableEq, Repr

/-- Next AUTOINCREMENT id for a table whose current ids are `ids`. -/
def freshId (ids : List Nat) : Nat := ids.foldr max 0 + 1

/-- Observable outcome of a handler: either a redirect to an endpoint or a
rendered template, together with the flash messages (text, category) the
handler queued. -/
inductive Resp where
  | redirect (endpoint : String) (flash : List (String × String))
  | render (template : String) (flash : List (String × String))
deriving DecidableEq, Repr

/-- POST /register (src/app.py lines 119-134).  `hash` abstracts
generate_password_hash.  The INSERT raises sqlite3.IntegrityError exactly
when a stored row already carries the same (normalised) email, and the
except branch flashes the error and re-renders the form. -/
def register (hash : String → String) (email name password : String)
    (db : DB) : DB × Resp :=
  let e := normEmail email
  let n := pyStrip name
  let hashed := hash password
  if db.user.any (fun u => u.email == e) then
    (db, .render "register.html"
      [("Chyba při registraci: UNIQUE constraint failed: user.email", "danger")])
  else
    ({ db with user :=
        db.user ++ [⟨freshId (db.user.map (fun u => u.id)), e, n, hashed, 0⟩] },
     .redirect "login" [("Registrace úspěšná, přihlas se.", "success")])

/-- POST /login (src/app.py lines 136-149).  `verify` abstracts
check_password_hash (stored hash, submitted password).  Returns the id of
the user logged in (None when no session is established) and the response. -/
def login (verify : String → String → Bool) (email password : String)
    (db : DB) : Option Nat × Resp :=
  let e := normEmail email
  match db.user.find? (fun u => u.email == e) with
  | some row =>
    if verify row.password password then
      (some row.id, .redirect "dashboard" [("Přihlášení úspěšné", "success")])
    else
      (none, .render "login.html" [("Špatné přihlašovací údaje", "danger")])
  | none =>
    (none, .render "login.html" [("Špatné přihlašovací údaje", "danger")])

/-- Insertion into a list sorted by position (model of ORDER BY position). -/
def insertByPos (st : ShiftStepRow) : List ShiftStepRow → List ShiftStepRow
  | [] => [st]
  | x :: xs =>
    if st.position < x.position then st :: x :: xs else x :: insertByPos st xs

/-- Sorting by position (model of ORDER BY position). -/
def sortByPos : List ShiftStepRow → List ShiftStepRow
  | [] => []
  | x :: xs => insertByPos x (sortByPos xs)

/-- SELECT * FROM shift_step WHERE shift_id=? ORDER BY position. -/
def orderedSteps (db : DB) (sid : Nat) : List ShiftStepRow :=
  sortByPos (db.shift_step.filter (fun st => st.shift_id == sid))

/-- The loop of select_shift: one fresh incomplete progress row per step,
ids assigned sequentially from `idc`, stamped `now`. -/
def insertProgress (uid sid : Nat) (now : String) :
    Nat → List ShiftStepRow → List ProgressRow
  | _, [] => []
  | idc, st :: rest =>
    ⟨idc, uid, sid, st.id, 0, now⟩ :: insertProgress uid sid now (idc + 1) rest

/-- The POST actions dispatched by the `action` form field of
/shift/<id>; toggle_<step_id> carries the parsed step id and add_note the
note_content field. -/
inductive Action where
  | select_shift
  | toggle (step_id : Nat)
  | complete_shift
  | add_note (content : String)
deriving DecidableEq, Repr

/-- Row predicate of the WHERE user_id=? AND shift_id=? clauses. -/
def ownsPair (uid sid : Nat) (p : ProgressRow) : Bool :=
  p.user_id == uid && p.shift_id == sid

/-- Row predicate of the WHERE user_id=? AND shift_id=? AND step_id=?
clauses. -/
def ownsStep (uid sid step_id : Nat) (p : ProgressRow) : Bool :=
  p.user_id == uid && p.shift_id == sid && p.step_id == step_id

/-- Action select_shift (src/app.py lines 203-212): DELETE the (user, shift)
progress, then INSERT one incomplete row per step. -/
def selectShiftAction (uid sid : Nat) (now : String) (db : DB) : DB × Resp :=
  let cleared := db.progress.filter (fun p => !(ownsPair uid sid p))
  let inserted := insertProgress uid sid now
      (freshId (db.progress.map (fun p => p.id))) (orderedSteps db sid)
  ({ db with progress := cleared ++ inserted },
   .redirect "shift_detail" [("Směna vybrána – hodně štěstí!", "success")])

/-- Action toggle_<step_id> (src/app.py lines 214-224): SELECT the
(user, shift, step) progress row; if present, UPDATE completed to
0 when it was truthy and to 1 when it was 0, stamping `now`; otherwise do
nothing. -/
def toggleAction (uid sid step_id : Nat) (now : String) (db : DB) : DB × Resp :=
  match db.progress.find? (ownsStep uid sid step_id) with
  | some row =>
    let newc : Nat := if row.completed ≠ 0 then 0 else 1
    ({ db with progress := db.progress.map (fun p =>
        if ownsStep uid sid step_id p then
          { p with completed := newc, timestamp := now }
        else p) },
     .redirect "shift_detail" [])
  | none => (db, .redirect "shift_detail" [])

/-- Action complete_shift (src/app.py lines 226-230): DELETE the
(user, shift) progress and go to the dashboard. -/
def completeShiftAction (uid sid : Nat) (db : DB) : DB × Resp :=
  ({ db with progress := db.progress.filter (fun p => !(ownsPair uid sid p)) },
   .redirect "dashboard" [("Směna byla označena jako dokončená.", "info")])

/-- Action add_note (src/app.py lines 232-243): INSERT a note when the
trimmed content is non-empty, otherwise only flash a warning. -/
def addNoteAction (uid sid : Nat) (content now : String) (db : DB) : DB × Resp :=
  let c := pyStrip content
  if c ≠ "" then
    ({ db with note :=
        db.note ++ [⟨freshId (db.note.map (fun n => n.id)), sid, uid, c, now⟩] },
     .redirect "shift_detail" [("Poznámka přidána.", "success")])
  else
    (db, .redirect "shift_detail" [("Poznámka nesmí být prázdná.", "warning")])

/-- POST /shift/<id> (src/app.py lines 187-243): after the shift lookup
guard, dispatch on the action field. -/
def shiftDetailPost (uid sid : Nat) (now : String) (a : Action) (db : DB) :
    DB × Resp :=
  match db.shift.find? (fun s => s.id == sid) with
  | none => (db, .redirect "shifts" [("Směna nenalezena", "danger")])
  | some _ =>
    match a with
    | .select_shift => selectShiftAction uid sid now db
    | .toggle step_id => toggleAction uid sid step_id now db
    | .complete_shift => completeShiftAction uid sid db
    | .add_note content => addNoteAction uid sid content now db

/-- The step-insertion loop shared by the admin create and edit handlers:
strip each submitted line, skip blank ones, and insert the rest with
1-based consecutive positions (`pos` starts at 1 at both call sites). -/
def insertSteps (sid : Nat) : Nat → Nat → List String → List ShiftStepRow
  | _, _, [] => []
  | idc, pos, s :: rest =>
    let t := pyStrip s
    if t ≠ "" then
      ⟨idc, sid, pos, t⟩ :: insertSteps sid (idc + 1) (pos + 1) rest
    else insertSteps sid idc pos rest

/-- Redirect produced by every /admin* handler when the session lacks the
is_admin_access flag. -/
def gateRedirect : Resp := .redirect "admin_access" [("Nemáš oprávnění", "danger")]

/-- POST /admin (src/app.py lines 260-281): gate on the session flag, then
INSERT the shift row and its parsed steps. -/
def adminPost (admin_access_flag : Bool) (title description stepsText : String)
    (db : DB) : DB × Resp :=
  if admin_access_flag = false then (db, gateRedirect)
  else
    let sid := freshId (db.shift.map (fun s => s.id))
    let steps := insertSteps sid (freshId (db.shift_step.map (fun st => st.id)))
        1 (pySplitNL stepsText)
    ({ db with shift := db.shift ++ [⟨sid, title, description, 1⟩],
               shift_step := db.shift_step ++ steps },
     .redirect "admin" [("Směna vytvořena", "success")])

/-- POST /admin/edit/<id> (src/app.py lines 287-319): gate on the session
flag, look the shift up, UPDATE it, DELETE all its steps and reinsert them
from the submitted text. -/
def editShiftPost (admin_access_flag : Bool) (sid : Nat)
    (title description stepsText : String) (db : DB) : DB × Resp :=
  if admin_access_flag = false then (db, gateRedirect)
  else
    match db.shift.find? (fun s => s.id == sid) with
    | none => (db, .redirect "admin" [("Směna nenalezena.", "danger")])
    | some _ =>
      let updated := db.shift.map (fun s =>
        if s.id == sid then { s with title := title, description := description }
        else s)
      let kept := db.shift_step.filter (fun st => !(st.shift_id == sid))
      let steps := insertSteps sid
          (freshId (db.shift_step.map (fun st => st.id))) 1 (pySplitNL stepsText)
      ({ db with shift := updated, shift_step := kept ++ steps },
       .redirect "admin" [("Směna upravena.", "success")])

/-- POST /admin/delete/<id> (src/app.py lines 323-335): gate on the session
flag, then DELETE progress, shift_step and note rows referencing the shift,
and finally the shift row, in that order. -/
def deleteShift (admin_access_flag : Bool) (sid : Nat) (db : DB) : DB × Resp :=
  if admin_access_flag = false then (db, gateRedirect)
  else
    let db1 := { db with progress := db.progress.filter (fun p => !(p.shift_id == sid)) }
    let db2 := { db1 with shift_step := db1.shift_step.filter (fun st => !(st.shift_id == sid)) }
    let db3 := { db2 with note := db2.note.filter (fun n => !(n.shift_id == sid)) }
    let db4 := { db3 with shift := db3.shift.filter (fun s => !(s.id == sid)) }
    (db4, .redirect "admin" [("Směna a všechny související údaje byly smazány.", "info")])

/-- POST /admin-access (src/app.py lines 337-347): compare the submitted
password with the hard-coded constant and set the session flag on match.
Returns the new flag value and the response. -/
def adminAccessPost (password : String) (admin_access_flag : Bool) : Bool × Resp :=
  if password == "admin123" then
    (true, .redirect "admin" [("Přístup povolen", "success")])
  else
    (admin_access_flag, .render "admin_access.html" [("Špatné heslo", "danger")])

/-- Observation of a progress row without its timestamp:
(id, user_id, shift_id, step_id, completed). -/
def progressView (p : ProgressRow) : Nat × Nat × Nat × Nat × Nat :=
  (p.id, p.user_id, p.shift_id, p.step_id, p.completed)

/-- The progress table seen through progressView: everything but the
timestamps. -/
def flagsView (db : DB) : List (Nat × Nat × Nat × Nat × Nat) :=
  db.progress.map progressView

/-- ownsStep read off a progressView tuple. -/
def viewQ (uid sid step_id : Nat) (x : Nat × Nat × Nat × Nat × Nat) : Bool :=
  x.2.1 == uid && x.2.2.1 == sid && x.2.2.2.1 == step_id

/-- Effect of one toggle on the timestamp-free view of the progress table. -/
def viewToggle (uid sid step_id : Nat)
    (v : List (Nat × Nat × Nat × Nat × Nat)) :
    List (Nat × Nat × Nat × Nat × Nat) :=
  match v.find? (viewQ uid sid step_id) with
  | some x =>
    let newc : Nat := if x.2.2.2.2 ≠ 0 then 0 else 1
    v.map (fun y => if viewQ uid sid step_id y then
      (y.1, y.2.1, y.2.2.1, y.2.2.2.1, newc) else y)
  | none => v

/-- A sequence of toggle_<step_id> posts, one per timestamp in `ts`. -/
def toggles (uid sid step_id : Nat) (ts : List String) (db : DB) : DB :=
  ts.foldl (fun d t => (shiftDetailPost uid sid t (.toggle step_id) d).1) db

/-- A login attempt fails: either no user row carries the normalised email,
or the stored hash does not verify the submitted password. -/
def loginFails (verify : String → String → Bool) (db : DB)
    (email password : String) : Bool :=
  match db.user.find? (fun u => u.email == normEmail email) with
  | none => true
  | some row => !(verify row.password password)

/-- The shift_step rows belonging to one shift. -/
def stepsOf (db : DB) (sid : Nat) : List ShiftStepRow :=
  db.shift_step.filter (fun st => st.shift_id == sid)

/-- A small populated database used to instantiate the theorems: the seeded
admin account, one shift with two steps, prior progress of user 2 on that
shift (one step complete, one not) and one note. -/
def sampleDB : DB :=
  ⟨[⟨1, "admin@example.com", "Admin", "h", 1⟩],
   [⟨1, "Opening", "", 1⟩],
   [⟨1, 1, 1, "Unlock door"⟩, ⟨2, 1, 2, "Turn on lights"⟩],
   [⟨5, 2, 1, 1, 1, "old"⟩, ⟨6, 2, 1, 2, 0, "old"⟩],
   [⟨1, 1, 2, "ready", "t"⟩]⟩

/- General list lemmas used by the proofs below. -/

theorem find?_eq_head_filter {α : Type} (p : α → Bool) (l : List α) :
    l.find? p = (l.filter p).head? := by
  induction l with
  | nil => rfl
  | cons a t ih =>
    cases h : p a
    · rw [List.find?_cons_of_neg _ (by simp [h]), List.filter_cons_of_neg (by simp [h]), ih]
    · rw [List.find?_cons_of_pos _ h, List.filter_cons_of_pos h, List.head?_cons]

theorem filter_over_map {α β : Type} (p : β → Bool) (f : α → β) (l : List α) :
    (l.map f).filter p = (l.filter (fun a => p (f a))).map f := by
  induction l with
  | nil => rfl
  | cons a t ih => cases h : p (f a) <;> simp [List.filter_cons, h, ih]

theorem find_over_map {α β : Type} (p : β → Bool) (f : α → β) (l : List α) :
    (l.map f).find? p = (l.find? (fun a => p (f a))).map f := by
  induction l with
  | nil => rfl
  | cons a t ih => cases h : p (f a) <;> simp [List.find?_cons, h, ih]

theorem mem_eq_of_length_le_one {α : Type} {l : List α} {a b : α}
    (h : l.length ≤ 1) (ha : a ∈ l) (hb : b ∈ l) : a = b := by
  match l with
  | [] => cases ha
  | [x] => simp at ha hb; subst ha; subst hb; rfl
  | x :: y :: r => simp [List.length_cons] at h

/-- C3: a POST to /admin/delete/<id> with the admin session flag set removes
all shift_step rows, progress rows and note rows referencing the shift and
then the shift row itself (the handler issues the four DELETEs in that
order); afterwards no row of those three tables references the deleted
shift, and the user table is untouched. -/
theorem delete_shift_no_orphans (sid : Nat) (db : DB) :
    ((deleteShift true sid db).1.user = db.user)
    ∧ (∀ p ∈ (deleteShift true sid db).1.progress, p.shift_id ≠ sid)
    ∧ (∀ st ∈ (deleteShift true sid db).1.shift_step, st.shift_id ≠ sid)
    ∧ (∀ n ∈ (deleteShift true sid db).1.note, n.shift_id ≠ sid)
    ∧ (∀ s ∈ (deleteShift true sid db).1.shift, s.id ≠ sid) := by
  refine ⟨rfl, ?_, ?_, ?_, ?_⟩ <;> intro x hx <;>
    simp [deleteShift, List.mem_filter] at hx <;> exact hx.2

/-- C3 witness: deleting shift 1 of the sample database leaves no row of
shift_step, progress or note referencing it. -/
theorem delete_shift_no_orphans_witness :
    ((deleteShift true 1 sampleDB).1.progress = []
      ∧ (deleteShift true 1 sampleDB).1.shift_step = []
      ∧ (deleteShift true 1 sampleDB).1.note = [])
    ∧ (∀ p ∈ (deleteShift true 1 sampleDB).1.progress, p.shift_id ≠ 1)
    ∧ (∀ st ∈ (deleteShift true 1 sampleDB).1.shift_step, st.shift_id ≠ 1)
    ∧ (∀ n ∈ (deleteShift true 1 sampleDB).1.note, n.shift_id ≠ 1) :=
  ⟨by decide,
   (delete_shift_no_orphans 1 sampleDB).2.1,
   (delete_shift_no_orphans 1 sampleDB).2.2.1,
   (delete_shift_no_orphans 1 sampleDB).2.2.2.1⟩

/-- C4: without the admin-access session flag, POST /admin leaves the
database (in particular the shift table) unchanged and redirects to the
admin-access gate; and the gate sets the flag exactly when the submitted
passphrase is the hard-coded constant (or the flag was already set). -/
theorem admin_post_gate (title description stepsText password : String)
    (flag : Bool) (db : DB) :
    ((adminPost false title description stepsText db).1 = db
      ∧ (adminPost false title description stepsText db).2 = gateRedirect)
    ∧ ((adminAccessPost password flag).1 = true
        ↔ (password = "admin123" ∨ flag = true)) := by
  refine ⟨⟨rfl, rfl⟩, ?_⟩
  unfold adminAccessPost
  cases h : password == "admin123" <;> simp_all

/-- C10: the three admin handlers are gated solely by the session's
admin-access flag: without it each one returns the database unchanged with
a redirect to the gate; with it each one behaves identically whatever the
user table contains (no user needs to be authenticated and the is_admin
column is never consulted); and a client obtains the flag from a fresh
session exactly by submitting the passphrase admin123. -/
theorem admin_routes_access_only (sid : Nat)
    (title description stepsText password : String)
    (db : DB) (users2 : List UserRow) :
    ((adminPost false title description stepsText db) = (db, gateRedirect)
     ∧ (editShiftPost false sid title description stepsText db) = (db, gateRedirect)
     ∧ (deleteShift false sid db) = (db, gateRedirect))
    ∧ ((adminPost true title description stepsText { db with user := users2 }).1
         = { (adminPost true title description stepsText db).1 with user := users2 }
       ∧ (editShiftPost true sid title description stepsText { db with user := users2 }).1
         = { (editShiftPost true sid title description stepsText db).1 with user := users2 }
       ∧ (deleteShift true sid { db with user := users2 }).1
         = { (deleteShift true sid db).1 with user := users2 })
    ∧ ((adminAccessPost password false).1 = true ↔ password = "admin123") := by
  refine ⟨⟨rfl, rfl, rfl⟩, ⟨?_, ?_, ?_⟩, ?_⟩
  · rfl
  · cases h : db.shift.find? (fun s => s.id == sid) <;>
      simp [editShiftPost, h]
  · rfl
  · unfold adminAccessPost
    cases h : password == "admin123" <;> simp_all

/- Further list helpers. -/

theorem filter_eq_nil_of_all {α : Type} {p : α → Bool} {l : List α}
    (h : ∀ a ∈ l, p a = false) : l.filter p = [] := by
  induction l with
  | nil => rfl
  | cons a t ih =>
    rw [List.filter_cons_of_neg (by simp [h a (by simp)])]
    exact ih (fun a ha => h a (by simp [ha]))

theorem filter_eq_self_of_all {α : Type} {p : α → Bool} {l : List α}
    (h : ∀ a ∈ l, p a = true) : l.filter p = l := by
  induction l with
  | nil => rfl
  | cons a t ih =>
    rw [List.filter_cons_of_pos (h a (by simp))]
    rw [ih (fun a ha => h a (by simp [ha]))]

theorem insertProgress_mem (uid sid : Nat) (now : String) :
    ∀ (idc : Nat) (steps : List ShiftStepRow) (p : ProgressRow),
      p ∈ insertProgress uid sid now idc steps →
      p.user_id = uid ∧ p.shift_id = sid ∧ p.completed = 0
  | _, [], p, hp => by cases hp
  | idc, st :: rest, p, hp => by
    rcases (by simpa [insertProgress] using hp : p = ⟨idc, uid, sid, st.id, 0, now⟩ ∨
        p ∈ insertProgress uid sid now (idc + 1) rest) with h | h
    · subst h; exact ⟨rfl, rfl, rfl⟩
    · exact insertProgress_mem uid sid now (idc + 1) rest p h

theorem insertProgress_length (uid sid : Nat) (now : String) :
    ∀ (idc : Nat) (steps : List ShiftStepRow),
      (insertProgress uid sid now idc steps).length = steps.length
  | _, [] => rfl
  | idc, st :: rest => by
    simp [insertProgress, insertProgress_length uid sid now (idc + 1) rest]

theorem length_insertByPos (st : ShiftStepRow) (l : List ShiftStepRow) :
    (insertByPos st l).length = l.length + 1 := by
  induction l with
  | nil => rfl
  | cons x xs ih => simp only [insertByPos]; split <;> simp [ih]

theorem length_sortByPos (l : List ShiftStepRow) :
    (sortByPos l).length = l.length := by
  induction l with
  | nil => rfl
  | cons x xs ih => simp [sortByPos, length_insertByPos, ih]

theorem mem_insertByPos {a st : ShiftStepRow} {l : List ShiftStepRow} :
    a ∈ insertByPos st l ↔ a = st ∨ a ∈ l := by
  induction l with
  | nil => simp [insertByPos]
  | cons x xs ih =>
    simp only [insertByPos]; split <;> (simp [ih]; try tauto)

theorem mem_sortByPos {a : ShiftStepRow} {l : List ShiftStepRow} :
    a ∈ sortByPos l ↔ a ∈ l := by
  induction l with
  | nil => exact Iff.rfl
  | cons x xs ih => simp [sortByPos, mem_insertByPos, ih]

/-- C5: registering with an email whose trimmed, lower-cased form equals
the email of a stored user row inserts nothing, leaves the database
unchanged and re-renders the form with an error flash; otherwise exactly
one user row is appended and it stores the trimmed, lower-cased email (and
the trimmed name, the hash of the password, and is_admin = 0). -/
theorem register_unique_email (hash : String → String)
    (email name password : String) (db : DB) :
    ((∃ u ∈ db.user, u.email = normEmail email) →
        register hash email name password db
          = (db, .render "register.html"
              [("Chyba při registraci: UNIQUE constraint failed: user.email",
                "danger")]))
    ∧ ((∀ u ∈ db.user, u.email ≠ normEmail email) →
        register hash email name password db
          = ({ db with user := db.user ++
                [⟨freshId (db.user.map (fun u => u.id)), normEmail email,
                  pyStrip name, hash password, 0⟩] },
             .redirect "login" [("Registrace úspěšná, přihlas se.", "success")])) := by
  constructor
  · intro h
    have ha : db.user.any (fun u => u.email == normEmail email) = true := by
      rcases h with ⟨u, hu, he⟩
      exact List.any_eq_true.mpr ⟨u, hu, by simp [he]⟩
    simp [register, ha]
  · intro h
    cases ha : db.user.any (fun u => u.email == normEmail email)
    · simp [register, ha]
    · exfalso
      rcases List.any_eq_true.mp ha with ⟨u, hu, he⟩
      exact h u hu (by simpa using he)

/-- C5 witness: on the sample database, registering " Admin@Example.COM "
(normalising to the stored admin email) changes nothing and reports the
error, while registering a fresh address appends exactly one row storing
the normalised email. -/
theorem register_unique_email_witness :
    (register (fun s => s) " Admin@Example.COM " "X" "pw" sampleDB
       = (sampleDB, .render "register.html"
           [("Chyba při registraci: UNIQUE constraint failed: user.email",
             "danger")]))
    ∧ (register (fun s => s) "new@x.cz" " X " "pw" sampleDB
       = ({ sampleDB with user := sampleDB.user ++
             [⟨freshId (sampleDB.user.map (fun u => u.id)),
               normEmail "new@x.cz", pyStrip " X ", (fun s => s) "pw", 0⟩] },
          .redirect "login" [("Registrace úspěšná, přihlas se.", "success")])) :=
  ⟨(register_unique_email (fun s => s) " Admin@Example.COM " "X" "pw" sampleDB).1
     (by decide),
   (register_unique_email (fun s => s) "new@x.cz" " X " "pw" sampleDB).2
     (by decide)⟩

/-- C6: the two login failure causes — unknown (normalised) email, and
stored hash not verifying the password — produce literally the same
observable response (generic flash, login page re-rendered) and no session;
a verifying email/password pair logs the row's user in and redirects to
the dashboard. -/
theorem login_failure_indistinguishable (verify : String → String → Bool)
    (db : DB) :
    (∀ e1 p1 e2 p2, loginFails verify db e1 p1 = true →
       loginFails verify db e2 p2 = true →
       (login verify e1 p1 db).2 = (login verify e2 p2 db).2
       ∧ (login verify e1 p1 db).1 = none)
    ∧ (∀ e p row, db.user.find? (fun u => u.email == normEmail e) = some row →
       verify row.password p = true →
       login verify e p db
         = (some row.id, .redirect "dashboard" [("Přihlášení úspěšné", "success")])) := by
  have key : ∀ e p, loginFails verify db e p = true →
      login verify e p db
        = (none, .render "login.html" [("Špatné přihlašovací údaje", "danger")]) := by
    intro e p h
    unfold loginFails at h
    simp only [login]
    cases hf : db.user.find? (fun u => u.email == normEmail e) with
    | none => rfl
    | some row =>
      rw [hf] at h
      simp only [Bool.not_eq_true'] at h
      simp [h]
  constructor
  · intro e1 p1 e2 p2 h1 h2
    rw [key e1 p1 h1, key e2 p2 h2]
    exact ⟨rfl, rfl⟩
  · intro e p row hf hv
    simp only [login]
    rw [hf]
    simp [hv]

/-- C6 witness: on the sample database, logging in with an unknown email
and logging in with the admin email but a wrong password yield the same
response, and the correct pair logs user 1 in. -/
theorem login_failure_indistinguishable_witness :
    ((login (fun stored given => stored == given) "ghost@x.cz" "w" sampleDB).2
       = (login (fun stored given => stored == given) "admin@example.com" "wrong" sampleDB).2)
    ∧ (login (fun stored given => stored == given) "admin@example.com" "h" sampleDB
       = (some 1, .redirect "dashboard" [("Přihlášení úspěšné", "success")])) :=
  ⟨((login_failure_indistinguishable (fun stored given => stored == given) sampleDB).1
      "ghost@x.cz" "w" "admin@example.com" "wrong" (by decide) (by decide)).1,
   (login_failure_indistinguishable (fun stored given => stored == given) sampleDB).2
     "admin@example.com" "h" ⟨1, "admin@example.com", "Admin", "h", 1⟩
     (by decide) (by decide)⟩

theorem filter_idem {α : Type} (p : α → Bool) (l : List α) :
    (l.filter p).filter p = l.filter p :=
  filter_eq_self_of_all (fun _ ha => (List.mem_filter.mp ha).2)

/-- C9: the select_shift and complete_shift actions of POST /shift/<id>
touch only the (user, shift) slice of the progress table: the user, shift,
shift_step and note tables are returned unchanged, and the progress rows
whose user_id or shift_id differ are preserved exactly (with order and
multiplicity). -/
theorem shift_actions_frame (uid sid : Nat) (now : String) (db : DB) :
    (((shiftDetailPost uid sid now .select_shift db).1.user = db.user)
     ∧ ((shiftDetailPost uid sid now .select_shift db).1.shift = db.shift)
     ∧ ((shiftDetailPost uid sid now .select_shift db).1.shift_step = db.shift_step)
     ∧ ((shiftDetailPost uid sid now .select_shift db).1.note = db.note)
     ∧ ((shiftDetailPost uid sid now .select_shift db).1.progress.filter
          (fun p => !(ownsPair uid sid p))
        = db.progress.filter (fun p => !(ownsPair uid sid p))))
    ∧ (((shiftDetailPost uid sid now .complete_shift db).1.user = db.user)
     ∧ ((shiftDetailPost uid sid now .complete_shift db).1.shift = db.shift)
     ∧ ((shiftDetailPost uid sid now .complete_shift db).1.shift_step = db.shift_step)
     ∧ ((shiftDetailPost uid sid now .complete_shift db).1.note = db.note)
     ∧ ((shiftDetailPost uid sid now .complete_shift db).1.progress.filter
          (fun p => !(ownsPair uid sid p))
        = db.progress.filter (fun p => !(ownsPair uid sid p)))) := by
  cases hf : db.shift.find? (fun s => s.id == sid) with
  | none => simp [shiftDetailPost, hf]
  | some s =>
    simp only [shiftDetailPost, hf, selectShiftAction, completeShiftAction]
    have hins : ∀ p ∈ insertProgress uid sid now
        (freshId (db.progress.map (fun p => p.id))) (orderedSteps db sid),
        (!(ownsPair uid sid p)) = false := by
      intro p hp
      obtain ⟨h1, h2, _⟩ := insertProgress_mem uid sid now _ _ p hp
      simp [ownsPair, h1, h2]
    constructor
    · refine ⟨trivial, trivial, trivial, trivial, ?_⟩
      rw [List.filter_append, filter_idem, filter_eq_nil_of_all hins,
        List.append_nil]
    · exact ⟨trivial, trivial, trivial, trivial, filter_idem _ _⟩

/-- C1: with the shift present, a POST of action select_shift leaves
exactly one progress row per step of the shift for the (user, shift) pair,
each with completed = 0, whatever progress rows (complete or not) existed
for the pair beforehand. -/
theorem select_shift_resets (uid sid : Nat) (now : String) (db : DB)
    (hs : (db.shift.find? (fun s => s.id == sid)).isSome) :
    (((shiftDetailPost uid sid now .select_shift db).1.progress.filter
        (ownsPair uid sid)).length
      = (db.shift_step.filter (fun st => st.shift_id == sid)).length)
    ∧ (∀ p ∈ (shiftDetailPost uid sid now .select_shift db).1.progress.filter
        (ownsPair uid sid), p.completed = 0) := by
  rw [Option.isSome_iff_exists] at hs
  obtain ⟨s, hf⟩ := hs
  simp only [shiftDetailPost, hf, selectShiftAction]
  have h1 : (db.progress.filter (fun p => !(ownsPair uid sid p))).filter
      (ownsPair uid sid) = [] :=
    filter_eq_nil_of_all (fun p hp => by
      simpa using (List.mem_filter.mp hp).2)
  have h2 : (insertProgress uid sid now
        (freshId (db.progress.map (fun p => p.id))) (orderedSteps db sid)).filter
      (ownsPair uid sid)
      = insertProgress uid sid now
          (freshId (db.progress.map (fun p => p.id))) (orderedSteps db sid) :=
    filter_eq_self_of_all (fun p hp => by
      obtain ⟨ha, hb, _⟩ := insertProgress_mem uid sid now _ _ p hp
      simp [ownsPair, ha, hb])
  constructor
  · rw [List.filter_append, h1, h2, List.nil_append, insertProgress_length]
    exact length_sortByPos _
  · intro p hp
    rw [List.filter_append, h1, h2, List.nil_append] at hp
    exact (insertProgress_mem uid sid now _ _ p hp).2.2

/-- C1 witness: user 2 re-selects shift 1 of the sample database (which
already holds one complete and one incomplete progress row for the pair)
and ends with exactly 2 incomplete rows, one per step. -/
theorem select_shift_resets_witness :
    ((sampleDB.shift.find? (fun s => s.id == 1)).isSome)
    ∧ ((((shiftDetailPost 2 1 "t9" .select_shift sampleDB).1.progress.filter
          (ownsPair 2 1)).length
        = (sampleDB.shift_step.filter (fun st => st.shift_id == 1)).length)
       ∧ (∀ p ∈ (shiftDetailPost 2 1 "t9" .select_shift sampleDB).1.progress.filter
          (ownsPair 2 1), p.completed = 0)) :=
  ⟨by decide, select_shift_resets 2 1 "t9" sampleDB (by decide)⟩

theorem insertSteps_fields (sid : Nat) :
    ∀ (lines : List String) (idc pos : Nat),
      ((insertSteps sid idc pos lines).map (fun r => r.description)
         = (lines.map pyStrip).filter (fun t => !(t == "")))
      ∧ ((insertSteps sid idc pos lines).map (fun r => r.position)
         = List.range' pos ((lines.map pyStrip).filter (fun t => !(t == ""))).length)
      ∧ (∀ r ∈ insertSteps sid idc pos lines, r.shift_id = sid)
  | [], idc, pos => by simp [insertSteps]
  | s :: rest, idc, pos => by
    by_cases h : pyStrip s = ""
    · obtain ⟨jh1, jh2, jh3⟩ := insertSteps_fields sid rest idc pos
      refine ⟨by simp [insertSteps, h, jh1], by simp [insertSteps, h, jh2], ?_⟩
      intro r hr
      exact jh3 r (by simpa [insertSteps, h] using hr)
    · obtain ⟨ih1, ih2, ih3⟩ := insertSteps_fields sid rest (idc + 1) (pos + 1)
      refine ⟨?_, ?_, ?_⟩
      · simp [insertSteps, h, ih1]
      · simp [insertSteps, h, ih2, List.range'_succ]
      · intro r hr
        rcases (by simpa [insertSteps, h] using hr :
            r = ⟨idc, sid, pos, pyStrip s⟩ ∨
              r ∈ insertSteps sid (idc + 1) (pos + 1) rest) with h2 | h2
        · subst h2; rfl
        · exact ih3 r h2

/-- C8: an admin create or edit submission whose steps text block holds K
non-blank lines (after trimming) yields, for the created (respectively
edited) shift, shift_step rows whose (position, description) pairs are
exactly 1..K zipped with the trimmed non-blank lines in input order —
blank lines are skipped without consuming a position, and edit first
deletes every existing step of that shift. -/
theorem admin_steps_parsing (title description stepsText : String)
    (sid : Nat) (db : DB) :
    ((∀ st ∈ db.shift_step, st.shift_id ≠ freshId (db.shift.map (fun s => s.id))) →
       (stepsOf (adminPost true title description stepsText db).1
           (freshId (db.shift.map (fun s => s.id)))).map
           (fun r => (r.position, r.description))
         = (List.range' 1 (((pySplitNL stepsText).map pyStrip).filter
               (fun t => !(t == ""))).length).zip
             (((pySplitNL stepsText).map pyStrip).filter (fun t => !(t == ""))))
    ∧ ((db.shift.find? (fun s => s.id == sid)).isSome →
       (stepsOf (editShiftPost true sid title description stepsText db).1 sid).map
           (fun r => (r.position, r.description))
         = (List.range' 1 (((pySplitNL stepsText).map pyStrip).filter
               (fun t => !(t == ""))).length).zip
             (((pySplitNL stepsText).map pyStrip).filter (fun t => !(t == "")))) := by
  have hzip : ∀ sid2 idc : Nat,
      (insertSteps sid2 idc 1 (pySplitNL stepsText)).map
          (fun r => (r.position, r.description))
        = (List.range' 1 (((pySplitNL stepsText).map pyStrip).filter
              (fun t => !(t == ""))).length).zip
            (((pySplitNL stepsText).map pyStrip).filter (fun t => !(t == ""))) := by
    intro sid2 idc
    obtain ⟨h1, h2, _⟩ := insertSteps_fields sid2 (pySplitNL stepsText) idc 1
    rw [← List.zip_map', h1, h2]
  have hself : ∀ sid2 idc : Nat,
      (insertSteps sid2 idc 1 (pySplitNL stepsText)).filter
          (fun st => st.shift_id == sid2)
        = insertSteps sid2 idc 1 (pySplitNL stepsText) := by
    intro sid2 idc
    refine filter_eq_self_of_all (fun r hr => ?_)
    have := (insertSteps_fields sid2 (pySplitNL stepsText) idc 1).2.2 r hr
    simp [this]
  constructor
  · intro hnew
    have hold : db.shift_step.filter
        (fun st => st.shift_id == freshId (db.shift.map (fun s => s.id))) = [] :=
      filter_eq_nil_of_all (fun st hst => by simp [hnew st hst])
    simp only [adminPost, stepsOf]
    rw [if_neg (by simp)]
    simp only [List.filter_append, hold, hself, List.nil_append]
    exact hzip _ _
  · intro hs
    rw [Option.isSome_iff_exists] at hs
    obtain ⟨s, hf⟩ := hs
    have hkept : (db.shift_step.filter (fun st => !(st.shift_id == sid))).filter
        (fun st => st.shift_id == sid) = [] :=
      filter_eq_nil_of_all (fun st hst => by
        simpa using (List.mem_filter.mp hst).2)
    simp only [editShiftPost, stepsOf]
    rw [if_neg (by simp), hf]
    simp only [List.filter_append, hkept, hself, List.nil_append]
    exact hzip _ _

/-- C8 witness: creating a shift from "  a  \n\nb\nc " yields steps
(1, a), (2, b), (3, c), and editing shift 1 of the sample database with
"x\n \ny" replaces its steps by (1, x), (2, y). -/
theorem admin_steps_parsing_witness :
    (∀ st ∈ sampleDB.shift_step,
       st.shift_id ≠ freshId (sampleDB.shift.map (fun s => s.id)))
    ∧ ((sampleDB.shift.find? (fun s => s.id == 1)).isSome)
    ∧ ((stepsOf (adminPost true "T" "D" "  a  \n\nb\nc " sampleDB).1
          (freshId (sampleDB.shift.map (fun s => s.id)))).map
          (fun r => (r.position, r.description))
        = [(1, "a"), (2, "b"), (3, "c")])
    ∧ ((stepsOf (editShiftPost true 1 "T" "D" "x\n \ny" sampleDB).1 1).map
          (fun r => (r.position, r.description))
        = [(1, "x"), (2, "y")]) :=
  ⟨by decide, by decide,
   ((admin_steps_parsing "T" "D" "  a  \n\nb\nc " 1 sampleDB).1
      (by decide)).trans (by decide),
   ((admin_steps_parsing "T" "D" "x\n \ny" 1 sampleDB).2
      (by decide)).trans (by decide)⟩

theorem prod5_eta (y : Nat × Nat × Nat × Nat × Nat) :
    (y.1, y.2.1, y.2.2.1, y.2.2.2.1, y.2.2.2.2) = y := rfl

theorem viewQ_progressView (uid sid step_id : Nat) :
    (fun p => viewQ uid sid step_id (progressView p)) = ownsStep uid sid step_id :=
  rfl

theorem viewQ_update (uid sid step_id newc : Nat)
    (y : Nat × Nat × Nat × Nat × Nat) :
    viewQ uid sid step_id (if viewQ uid sid step_id y then
      (y.1, y.2.1, y.2.2.1, y.2.2.2.1, newc) else y) = viewQ uid sid step_id y := by
  by_cases h : viewQ uid sid step_id y = true
  · rw [if_pos h]; rfl
  · rw [if_neg h]

theorem flagsView_toggleAction (uid sid step_id : Nat) (now : String) (db : DB) :
    flagsView (toggleAction uid sid step_id now db).1
      = viewToggle uid sid step_id (flagsView db) := by
  unfold toggleAction viewToggle flagsView
  rw [find_over_map, viewQ_progressView]
  cases hf : db.progress.find? (ownsStep uid sid step_id) with
  | none => rfl
  | some row =>
    simp only [Option.map_some']
    rw [List.map_map, List.map_map]
    refine List.map_congr_left (fun p hp => ?_)
    by_cases hqp : ownsStep uid sid step_id p = true
    · have hqv : viewQ uid sid step_id (progressView p) = true := hqp
      simp [Function.comp, hqp, hqv, progressView]
      have hqv2 : viewQ uid sid step_id
          (p.id, p.user_id, p.shift_id, p.step_id, p.completed) = true := hqp
      rw [if_pos hqv2]
    · have hqv : viewQ uid sid step_id (progressView p) = false := by
        rw [Bool.not_eq_true] at hqp
        exact hqp
      simp [Function.comp, hqp, hqv]

theorem viewToggle_involution (uid sid step_id : Nat)
    (v : List (Nat × Nat × Nat × Nat × Nat))
    (h1 : (v.filter (viewQ uid sid step_id)).length ≤ 1)
    (h2 : ∀ x ∈ v.filter (viewQ uid sid step_id),
      x.2.2.2.2 = 0 ∨ x.2.2.2.2 = 1) :
    viewToggle uid sid step_id (viewToggle uid sid step_id v) = v := by
  cases hf : v.find? (viewQ uid sid step_id) with
  | none =>
    have hv : viewToggle uid sid step_id v = v := by
      unfold viewToggle; rw [hf]
    rw [hv, hv]
  | some x =>
    have hxq : viewQ uid sid step_id x = true := List.find?_some hf
    have hxmem : x ∈ v := List.mem_of_find?_eq_some hf
    have hx01 : x.2.2.2.2 = 0 ∨ x.2.2.2.2 = 1 :=
      h2 x (List.mem_filter.mpr ⟨hxmem, hxq⟩)
    have hv1 : viewToggle uid sid step_id v
        = v.map (fun y => if viewQ uid sid step_id y then
            (y.1, y.2.1, y.2.2.1, y.2.2.2.1,
              if x.2.2.2.2 ≠ 0 then 0 else 1) else y) := by
      unfold viewToggle; rw [hf]
    have hfun : (fun y => viewQ uid sid step_id
          ((fun y => if viewQ uid sid step_id y then
            (y.1, y.2.1, y.2.2.1, y.2.2.2.1,
              if x.2.2.2.2 ≠ 0 then 0 else 1) else y) y))
        = viewQ uid sid step_id :=
      funext (fun y => viewQ_update uid sid step_id _ y)
    have hf2 : (v.map (fun y => if viewQ uid sid step_id y then
          (y.1, y.2.1, y.2.2.1, y.2.2.2.1,
            if x.2.2.2.2 ≠ 0 then 0 else 1) else y)).find?
          (viewQ uid sid step_id)
        = some (x.1, x.2.1, x.2.2.1, x.2.2.2.1,
            if x.2.2.2.2 ≠ 0 then 0 else 1) := by
      rw [find_over_map, hfun, hf, Option.map_some']
      rw [if_pos hxq]
    rw [hv1]
    unfold viewToggle
    rw [hf2]
    simp only []
    rw [List.map_map]
    refine List.map_congr_left (fun y hy => ?_) |>.trans (List.map_id v)
    by_cases hq : viewQ uid sid step_id y = true
    · have hyx : y = x :=
        mem_eq_of_length_le_one h1
          (List.mem_filter.mpr ⟨hy, hq⟩) (List.mem_filter.mpr ⟨hxmem, hxq⟩)
      subst hyx
      rcases hx01 with h0 | h0
      · simp [Function.comp, hq, h0]
        have hc : viewQ uid sid step_id
            (y.1, y.2.1, y.2.2.1, y.2.2.2.1, (1 : Nat)) = true := hq
        rw [if_pos hc, ← h0]
      · simp [Function.comp, hq, h0]
        have hc : viewQ uid sid step_id
            (y.1, y.2.1, y.2.2.1, y.2.2.2.1, (0 : Nat)) = true := hq
        rw [if_pos hc, ← h0]
    · rw [Bool.not_eq_true] at hq
      simp [Function.comp, hq]

theorem toggle_step_eq (uid sid step_id : Nat) (t : String) (d : DB) :
    (shiftDetailPost uid sid t (.toggle step_id) d).1
      = if (d.shift.find? (fun s => s.id == sid)).isSome
        then (toggleAction uid sid step_id t d).1
        else d := by
  cases hf : d.shift.find? (fun s => s.id == sid) <;>
    simp [shiftDetailPost, hf]

theorem toggleAction_shift (uid sid step_id : Nat) (t : String) (d : DB) :
    (toggleAction uid sid step_id t d).1.shift = d.shift := by
  unfold toggleAction
  cases hf : d.progress.find? (ownsStep uid sid step_id) <;> simp

theorem toggles_no_shift (uid sid step_id : Nat) :
    ∀ (ts : List String) (d : DB),
      d.shift.find? (fun s => s.id == sid) = none →
      toggles uid sid step_id ts d = d
  | [], _, _ => rfl
  | t :: ts, d, hg => by
    have e : (shiftDetailPost uid sid t (.toggle step_id) d).1 = d := by
      simp [shiftDetailPost, hg]
    simp only [toggles, List.foldl_cons]
    rw [e]
    exact toggles_no_shift uid sid step_id ts d hg

theorem toggles_even (uid sid step_id : Nat) :
    ∀ (ts : List String) (db : DB), ts.length % 2 = 0 →
      ((flagsView db).filter (viewQ uid sid step_id)).length ≤ 1 →
      (∀ x ∈ (flagsView db).filter (viewQ uid sid step_id),
        x.2.2.2.2 = 0 ∨ x.2.2.2.2 = 1) →
      flagsView (toggles uid sid step_id ts db) = flagsView db
  | [], _, _, _, _ => rfl
  | [t], _, hp, _, _ => by simp at hp
  | t1 :: t2 :: rest, db, hp, h1, h2 => by
    have hrest : rest.length % 2 = 0 := by
      simp [List.length_cons] at hp
      omega
    cases hg : db.shift.find? (fun s => s.id == sid) with
    | none =>
      rw [toggles_no_shift uid sid step_id (t1 :: t2 :: rest) db hg]
    | some s =>
      have hgs : (db.shift.find? (fun s => s.id == sid)).isSome = true := by
        rw [hg]; rfl
      have hg1 : ((toggleAction uid sid step_id t1 db).1.shift.find?
          (fun s => s.id == sid)).isSome = true := by
        rw [toggleAction_shift]; exact hgs
      have e2 : (shiftDetailPost uid sid t2 (.toggle step_id)
            (shiftDetailPost uid sid t1 (.toggle step_id) db).1).1
          = (toggleAction uid sid step_id t2
              (toggleAction uid sid step_id t1 db).1).1 := by
        rw [toggle_step_eq uid sid step_id t1 db, if_pos hgs,
          toggle_step_eq, if_pos hg1]
      have hview : flagsView ((toggleAction uid sid step_id t2
            (toggleAction uid sid step_id t1 db).1).1) = flagsView db := by
        rw [flagsView_toggleAction, flagsView_toggleAction]
        exact viewToggle_involution uid sid step_id (flagsView db) h1 h2
      have h1b : ((flagsView ((toggleAction uid sid step_id t2
            (toggleAction uid sid step_id t1 db).1).1)).filter
            (viewQ uid sid step_id)).length ≤ 1 := by
        rw [hview]; exact h1
      have h2b : ∀ x ∈ (flagsView ((toggleAction uid sid step_id t2
            (toggleAction uid sid step_id t1 db).1).1)).filter
            (viewQ uid sid step_id), x.2.2.2.2 = 0 ∨ x.2.2.2.2 = 1 := by
        rw [hview]; exact h2
      simp only [toggles, List.foldl_cons]
      rw [e2]
      have ih := toggles_even uid sid step_id rest
        ((toggleAction uid sid step_id t2
          (toggleAction uid sid step_id t1 db).1).1) hrest h1b h2b
      simp only [toggles] at ih
      rw [ih]
      exact hview

/-- C2: on a database holding at most one progress row for the
(user, shift, step) key, with its completed flag in 0 or 1, any
even-length sequence of toggle_<step_id> posts restores the progress
table's timestamp-free view (every row's completed flag, in particular)
to its original value; and when no progress row matches the key, one
toggle post is a strict no-op on the database (so it creates no row and
the progress row count is unchanged). -/
theorem toggle_even_restores_and_missing_noop (uid sid step_id : Nat) (db : DB)
    (huniq : (db.progress.filter (ownsStep uid sid step_id)).length ≤ 1)
    (hflag : ∀ p ∈ db.progress.filter (ownsStep uid sid step_id),
      p.completed = 0 ∨ p.completed = 1) :
    (∀ ts : List String, ts.length % 2 = 0 →
       flagsView (toggles uid sid step_id ts db) = flagsView db)
    ∧ (db.progress.filter (ownsStep uid sid step_id) = [] →
       ∀ now, (shiftDetailPost uid sid now (.toggle step_id) db).1 = db) := by
  have hset : (flagsView db).filter (viewQ uid sid step_id)
      = (db.progress.filter (ownsStep uid sid step_id)).map progressView := by
    unfold flagsView
    rw [filter_over_map, viewQ_progressView]
  constructor
  · intro ts hts
    refine toggles_even uid sid step_id ts db hts ?_ ?_
    · rw [hset, List.length_map]; exact huniq
    · rw [hset]
      intro x hx
      obtain ⟨p, hp, rfl⟩ := List.mem_map.mp hx
      exact hflag p hp
  · intro hempty now
    have hnone : db.progress.find? (ownsStep uid sid step_id) = none := by
      rw [find?_eq_head_filter, hempty]; rfl
    cases hf : db.shift.find? (fun s => s.id == sid) with
    | none => simp [shiftDetailPost, hf]
    | some s => simp [shiftDetailPost, hf, toggleAction, hnone]

/-- C2 witness: for user 2, shift 1, step 1 of the sample database (one
matching row, completed = 1) two toggles restore the timestamp-free view
of the progress table; for step 99 (no matching row) one toggle post
leaves the database untouched. -/
theorem toggle_even_restores_and_missing_noop_witness :
    (flagsView (toggles 2 1 1 ["a", "b"] sampleDB) = flagsView sampleDB)
    ∧ ((shiftDetailPost 2 1 "a" (.toggle 99) sampleDB).1 = sampleDB) :=
  ⟨(toggle_even_restores_and_missing_noop 2 1 1 sampleDB (by decide)
      (by decide)).1 ["a", "b"] (by decide),
   (toggle_even_restores_and_missing_noop 2 1 99 sampleDB (by decide)
      (by decide)).2 (by decide) "a"⟩

end Shiftcheck
